import Mathlib

/-
Shallow embedding of the satellite conjunction script src/satellite_monitor.py.

Positions are modelled as Option Vec3 over the rationals: none stands for the
(nan, nan, nan) invalid-sample marker of the script, and NaN propagation
through numpy subtraction and np.linalg.norm is modelled by Option
propagation.  Distances are carried as squared Euclidean norms in ℚ; the
reported distance of the script is the square root, and since Real.sqrt is
monotone and injective on nonnegative arguments the argmin, the ties and all
comparisons agree.  Times are microseconds since an epoch; the datetime
fields passed to jday drop the microsecond component, which is floor
division by 10^6.
-/

namespace SatMonitor

/-- A position sample value: an ECI coordinate triple in kilometers. -/
abbrev Vec3 : Type := ℚ × ℚ × ℚ

/-- A recorded sample: none models the NaN triple recorded on sgp4 failure. -/
abbrev Sample : Type := Option Vec3

/-- Embedding of fetch_tle (src lines 18 to 29): the response is none for a
network failure (RequestException); otherwise the list of lines of the body.
Only a line count of at least 3 is checked; the first three lines are
returned untouched. -/
def fetch_tle (resp : Option (List String)) : Option (String × String × String) :=
  match resp with
  | none => none
  | some lines =>
    if 3 ≤ lines.length then some (lines.getD 0 "", lines.getD 1 "", lines.getD 2 "")
    else none

/-- Python int() applied to a rational: truncation toward zero. -/
def pyInt (q : ℚ) : ℤ := if 0 ≤ q then ⌊q⌋ else ⌈q⌉

/-- Microsecond timestamp of start_time + timedelta(seconds = i * step_sec). -/
def gridInstantUs (startUs : ℤ) (stepSec : ℤ) (i : ℕ) : ℤ :=
  startUs + (i : ℤ) * stepSec * 1000000

/-- Whole-second instant handed to jday: reading the datetime fields year
through second drops the microsecond component, i.e. floor division of the
microsecond timestamp by 10^6. -/
def jdaySeconds (us : ℤ) : ℤ := us / 1000000

/-- Embedding of propagate_positions (src lines 31 to 41).  The sgp4
propagator is abstracted as a function from the whole-second instant to an
optional position (none when the sgp4 error code is nonzero, which the
script records as a NaN triple).  A zero step raises ZeroDivisionError
in the num_steps division; otherwise num_steps = int(hours * 3600 / step_sec)
and range of a nonpositive count is empty, so no validation ever rejects
negative parameters. -/
def propagate_positions (sgp4 : ℤ → Sample) (startUs : ℤ) (hours : ℚ) (stepSec : ℤ) :
    Except String (List Sample) :=
  if stepSec = 0 then .error "ZeroDivisionError: float division by zero"
  else
    .ok ((List.range (pyInt (hours * 3600 / (stepSec : ℚ))).toNat).map
      fun i => sgp4 (jdaySeconds (gridInstantUs startUs stepSec i)))

/-- Componentwise difference of two valid coordinate triples. -/
def subVec (a b : Vec3) : Vec3 := (a.1 - b.1, a.2.1 - b.2.1, a.2.2 - b.2.2)

/-- Componentwise numpy subtraction of two samples; a NaN operand makes the
whole difference NaN. -/
def subSample : Sample → Sample → Sample
  | some a, some b => some (subVec a b)
  | _, _ => none

/-- Squared Euclidean norm of a coordinate triple. -/
def sqNorm (v : Vec3) : ℚ := v.1 * v.1 + v.2.1 * v.2.1 + v.2.2 * v.2.2

/-- Per-index squared separation, none when either sample is invalid: one
entry of np.linalg.norm(s1 - s2, axis=1), with a NaN entry as none. -/
def sqSep (a b : Sample) : Option ℚ := (subSample a b).map sqNorm

/-- The numpy elementwise difference of the two position arrays reduced by
np.linalg.norm(axis=1), as a list of optional squared separations.  Shapes
(n,3) and (m,3) broadcast when n = m or one of them is 1; an empty positions
list has numpy shape (0,) and fails either broadcasting or the axis=1
reduction; any other mismatch raises a broadcast ValueError. -/
def sepSeries (p1 p2 : List Sample) : Except String (List (Option ℚ)) :=
  if p1.length = 0 ∨ p2.length = 0 then
    .error "ValueError: empty operand shape (0,) does not reduce along axis 1"
  else if p1.length = p2.length then
    .ok (List.zipWith sqSep p1 p2)
  else if p1.length = 1 then
    .ok (p2.map fun b => sqSep (p1.headD none) b)
  else if p2.length = 1 then
    .ok (p1.map fun a => sqSep a (p2.headD none))
  else
    .error "ValueError: operands could not be broadcast together"

/-- Combine the current indexed entry with the best of the rest, keeping the
current one on ties so that the first occurrence of the minimum wins. -/
def minPick (i : ℕ) (d : ℚ) : Option (ℕ × ℚ) → ℕ × ℚ
  | none => (i, d)
  | some (j, e) => if e < d then (j, e) else (i, d)

/-- Embedding of np.nanargmin on a list whose NaN entries are none, carrying
the index offset: returns index and value of the smallest non-NaN entry,
first occurrence on ties; none on an all-NaN input, where numpy raises
ValueError. -/
def nanargmin : List (Option ℚ) → ℕ → Option (ℕ × ℚ)
  | [], _ => none
  | none :: rest, i => nanargmin rest (i + 1)
  | some d :: rest, i => some (minPick i d (nanargmin rest (i + 1)))

/-- One entry of closest_events: the script stores the two names, the minimum
distance and the time of approach; here the minimizing index and the squared
minimum distance (the instant is start + idx * step, the distance its square
root). -/
structure Event where
  s1 : String
  s2 : String
  idx : ℕ
  minSqDist : ℚ
deriving DecidableEq, Repr

/-- Body of the collision-analysis loop for one pair (src lines 72 to 83):
the distance series, np.nanargmin, and the event record.  No exception
raised inside is caught anywhere in the script. -/
def closestPair (n1 n2 : String) (p1 p2 : List Sample) : Except String Event :=
  match sepSeries p1 p2 with
  | .error e => .error e
  | .ok ds =>
    match nanargmin ds 0 with
    | none => .error "ValueError: All-NaN slice encountered"
    | some (i, d) => .ok ⟨n1, n2, i, d⟩

/-- Index pairs (i, j) with i < j in the order of the nested for loops of the
script. -/
def pairIdxs (n : ℕ) : List (ℕ × ℕ) :=
  (List.range n).flatMap fun i =>
    ((List.range n).filter fun j => decide (i < j)).map fun j => (i, j)

/-- A satellite record as the analysis loop sees it: display name plus the
propagated positions array. -/
abbrev Sat : Type := String × List Sample

/-- The collision-analysis loop over a list of index pairs: Python appends
one event per pair, and an uncaught exception aborts the whole loop and the
script, so the delivered result is either all events or the first error. -/
def analyzePairs (sats : List Sat) : List (ℕ × ℕ) → Except String (List Event)
  | [] => .ok []
  | (i, j) :: rest =>
    match closestPair (sats.getD i ("", [])).1 (sats.getD j ("", [])).1
        (sats.getD i ("", [])).2 (sats.getD j ("", [])).2 with
    | .error e => .error e
    | .ok ev =>
      match analyzePairs sats rest with
      | .error e => .error e
      | .ok evs => .ok (ev :: evs)

/-- The whole static collision analysis (src lines 67 to 83). -/
def analyzeAll (sats : List Sat) : Except String (List Event) :=
  analyzePairs sats (pairIdxs sats.length)

/-- Risk category rendered by the live callback. -/
inductive Risk : Type
  | ALERT : Risk
  | SAFE : Risk
deriving DecidableEq, Repr

/-- The classification in update_info (src lines 148 to 151): alert exactly
when the stored minimum distance is strictly below the configured
threshold. -/
def classify (distKm thresholdKm : ℚ) : Risk :=
  if distKm < thresholdKm then .ALERT else .SAFE

/-- The main-script loop over NORAD_IDS (src lines 58 to 65): the fetch
result of each id is consumed exactly once; a failed fetch (None) skips the
id, a successful one stores the name and the propagated positions.  The
trajectory pipeline applied to a fetched record is abstracted as
traj line1 line2. -/
def buildSats (fetchRes : List (ℕ × Option (List String)))
    (traj : String → String → List Sample) : List (ℕ × Sat) :=
  fetchRes.filterMap fun p =>
    (fetch_tle p.2).map fun t => (p.1, t.1, traj t.2.1 t.2.2)

/-- Modelled from the spec: the per-line checksum validation, which is absent
from the source.  The final character of a TLE line must be the decimal
digit equal, modulo 10, to the sum of the digits among the preceding
characters, each minus sign counted as 1. -/
def lineChecksumOk (line : String) : Bool :=
  match line.toList.getLast? with
  | none => false
  | some last =>
    let s := line.toList.dropLast.foldl
      (fun acc c => acc + (if c = '-' then 1 else if c.isDigit then c.toNat - 48 else 0)) 0
    last == Char.ofNat (48 + s % 10)

/-! ### Properties of the nanargmin embedding -/

/-- The minimum search comes back empty exactly on an all-NaN series. -/
theorem nanargmin_eq_none_iff (l : List (Option ℚ)) (k : ℕ) :
    nanargmin l k = none ↔ ∀ x ∈ l, x = none := by
  induction l generalizing k with
  | nil => simp [nanargmin]
  | cons hd tl ih =>
    cases hd with
    | none => simpa [nanargmin] using ih (k + 1)
    | some d => simp [nanargmin]

/-- Full characterisation of a successful nanargmin: the returned index is in
range with the returned value at it, the value is a lower bound of every
non-NaN entry, and every non-NaN entry strictly before the returned index is
strictly larger. -/
theorem nanargmin_spec (l : List (Option ℚ)) (k : ℕ) (i : ℕ) (d : ℚ)
    (h : nanargmin l k = some (i, d)) :
    k ≤ i ∧ l[i - k]? = some (some d) ∧
      (∀ (m : ℕ) (e : ℚ), l[m]? = some (some e) → d ≤ e) ∧
      (∀ (m : ℕ) (e : ℚ), m + k < i → l[m]? = some (some e) → d < e) := by
  induction l generalizing k i d with
  | nil => simp [nanargmin] at h
  | cons hd tl ih =>
    cases hd with
    | none =>
      rw [nanargmin] at h
      obtain ⟨hk, hget, hlb, hfirst⟩ := ih (k + 1) i d h
      refine ⟨by omega, ?_, ?_, ?_⟩
      · have hik : i - k = (i - (k + 1)) + 1 := by omega
        rw [hik]
        simpa using hget
      · intro m e hm
        cases m with
        | zero => simp at hm
        | succ m => exact hlb m e (by simpa using hm)
      · intro m e hmi hm
        cases m with
        | zero => simp at hm
        | succ m => exact hfirst m e (by omega) (by simpa using hm)
    | some d0 =>
      rw [nanargmin] at h
      cases hrec : nanargmin tl (k + 1) with
      | none =>
        rw [hrec] at h
        simp only [minPick, Option.some.injEq, Prod.mk.injEq] at h
        obtain ⟨rfl, rfl⟩ := h
        have hall := (nanargmin_eq_none_iff tl _).mp hrec
        refine ⟨le_refl _, by simp, ?_, ?_⟩
        · intro m e hm
          cases m with
          | zero =>
            simp only [List.getElem?_cons_zero, Option.some.injEq] at hm
            exact le_of_eq hm
          | succ m =>
            have hmem : (some e : Option ℚ) ∈ tl := List.getElem?_mem (by simpa using hm)
            exact absurd (hall _ hmem) (by simp)
        · intro m e hmi _
          omega
      | some p =>
        obtain ⟨j, e0⟩ := p
        rw [hrec] at h
        obtain ⟨hk, hget, hlb, hfirst⟩ := ih (k + 1) j e0 hrec
        by_cases hlt : e0 < d0
        · simp only [minPick, hlt, if_pos, Option.some.injEq, Prod.mk.injEq] at h
          obtain ⟨rfl, rfl⟩ := h
          refine ⟨by omega, ?_, ?_, ?_⟩
          · have hik : j - k = (j - (k + 1)) + 1 := by omega
            rw [hik]
            simpa using hget
          · intro m e hm
            cases m with
            | zero =>
              simp only [List.getElem?_cons_zero, Option.some.injEq] at hm
              exact le_of_lt (hm ▸ hlt)
            | succ m => exact hlb m e (by simpa using hm)
          · intro m e hmi hm
            cases m with
            | zero =>
              simp only [List.getElem?_cons_zero, Option.some.injEq] at hm
              exact hm ▸ hlt
            | succ m => exact hfirst m e (by omega) (by simpa using hm)
        · simp only [minPick, hlt, if_neg, Option.some.injEq, Prod.mk.injEq,
            if_false] at h
          obtain ⟨rfl, rfl⟩ := h
          refine ⟨le_refl _, by simp, ?_, ?_⟩
          · intro m e hm
            cases m with
            | zero =>
              simp only [List.getElem?_cons_zero, Option.some.injEq] at hm
              exact le_of_eq hm
            | succ m =>
              have h1 : d0 ≤ e0 := not_lt.mp hlt
              exact le_trans h1 (hlb m e (by simpa using hm))
          · intro m e hmi _
            omega

/-- A successful search exists as soon as one entry of the series is
non-NaN. -/
theorem nanargmin_isSome_of_entry (l : List (Option ℚ)) (k m : ℕ) (e : ℚ)
    (h : l[m]? = some (some e)) : ∃ i d, nanargmin l k = some (i, d) := by
  cases hn : nanargmin l k with
  | none =>
    have hall := (nanargmin_eq_none_iff l k).mp hn
    exact absurd (hall _ (List.getElem?_mem h)) (by simp)
  | some p =>
    obtain ⟨i, d⟩ := p
    exact ⟨i, d, rfl⟩

/-! ### Properties of the separation series and the pair analysis -/

/-- On equal nonzero lengths the separation series is the indexwise zip. -/
theorem sepSeries_eq_zip (p1 p2 : List Sample) (hlen : p1.length = p2.length)
    (h0 : p1.length ≠ 0) :
    sepSeries p1 p2 = .ok (List.zipWith sqSep p1 p2) := by
  have h2 : p2.length ≠ 0 := by omega
  unfold sepSeries
  rw [if_neg (by push_neg; exact ⟨h0, h2⟩), if_pos hlen]

/-- A separation entry is some value exactly when both samples are valid and
the value is the squared norm of their difference. -/
theorem sqSep_eq_some (a b : Sample) (d : ℚ) :
    sqSep a b = some d ↔
      ∃ x y, a = some x ∧ b = some y ∧ d = sqNorm (subVec x y) := by
  cases a <;> cases b <;> simp [sqSep, subSample, eq_comm]

/-- Destructor for a successful pair analysis: the series came from a
successful broadcast and nanargmin picked the event index and value. -/
theorem closestPair_ok_elim (n1 n2 : String) (p1 p2 : List Sample) (ev : Event)
    (h : closestPair n1 n2 p1 p2 = .ok ev) :
    ∃ ds, sepSeries p1 p2 = .ok ds ∧
      nanargmin ds 0 = some (ev.idx, ev.minSqDist) ∧ ev.s1 = n1 ∧ ev.s2 = n2 := by
  unfold closestPair at h
  split at h
  · exact absurd h (by simp)
  · rename_i ds heq
    split at h
    · exact absurd h (by simp)
    · rename_i i d hn
      obtain rfl : Event.mk n1 n2 i d = ev := by simpa using h
      exact ⟨ds, heq, by simpa using hn, rfl, rfl⟩

/-- An error from the separation series is an error of the pair analysis. -/
theorem closestPair_error_of_sep (n1 n2 : String) (p1 p2 : List Sample) (e : String)
    (h : sepSeries p1 p2 = .error e) : closestPair n1 n2 p1 p2 = .error e := by
  unfold closestPair
  rw [h]

/-- Mismatched lengths, neither equal to one, make the series a broadcast
error. -/
theorem sepSeries_error_of_mismatch (p1 p2 : List Sample)
    (hne : p1.length ≠ p2.length) (h1 : p1.length ≠ 1) (h2 : p2.length ≠ 1) :
    ∃ e, sepSeries p1 p2 = .error e := by
  by_cases h0 : p1.length = 0 ∨ p2.length = 0
  · exact ⟨_, by unfold sepSeries; rw [if_pos h0]⟩
  · exact ⟨_, by unfold sepSeries; rw [if_neg h0, if_neg hne, if_neg h1, if_neg h2]⟩

/-- A pair of equal-length trajectories with no index where both samples are
valid makes the pair analysis fail. -/
theorem closestPair_error_of_no_overlap (n1 n2 : String) (p1 p2 : List Sample)
    (hlen : p1.length = p2.length)
    (hnov : ∀ (m : ℕ) (x y : Sample), p1[m]? = some x → p2[m]? = some y →
      sqSep x y = none) :
    ∃ e, closestPair n1 n2 p1 p2 = .error e := by
  by_cases h0 : p1.length = 0
  · obtain ⟨e, he⟩ : ∃ e, sepSeries p1 p2 = .error e :=
      ⟨_, by unfold sepSeries; rw [if_pos (Or.inl h0)]⟩
    exact ⟨e, closestPair_error_of_sep n1 n2 p1 p2 e he⟩
  · have hzip := sepSeries_eq_zip p1 p2 hlen h0
    have hall : ∀ x ∈ List.zipWith sqSep p1 p2, x = none := by
      intro x hx
      obtain ⟨m, hm⟩ := List.mem_iff_getElem?.mp hx
      obtain ⟨a, b, ha, hb, hab⟩ := List.getElem?_zipWith_eq_some.mp hm
      rw [← hab]
      exact hnov m a b ha hb
    have hn : nanargmin (List.zipWith sqSep p1 p2) 0 = none :=
      (nanargmin_eq_none_iff _ _).mpr hall
    refine ⟨"ValueError: All-NaN slice encountered", ?_⟩
    have hstep : closestPair n1 n2 p1 p2 =
        (match nanargmin (List.zipWith sqSep p1 p2) 0 with
         | none => Except.error "ValueError: All-NaN slice encountered"
         | some (i, d) => Except.ok ⟨n1, n2, i, d⟩) := by
      unfold closestPair
      rw [hzip]
    rw [hstep, hn]

/-- Every pair index produced by the nested loops is ordered and in range. -/
theorem pairIdxs_mem_lt (n : ℕ) (p : ℕ × ℕ) (h : p ∈ pairIdxs n) :
    p.1 < p.2 ∧ p.2 < n := by
  unfold pairIdxs at h
  simp only [List.mem_flatMap, List.mem_map, List.mem_filter, List.mem_range] at h
  obtain ⟨i, hi, j, ⟨hj, hij⟩, rfl⟩ := h
  exact ⟨by simpa using hij, hj⟩

/-- If any pair of the loop list fails its analysis, the whole loop delivers
an error: the exception is never caught. -/
theorem analyzePairs_error_of_pair (sats : List Sat) (l : List (ℕ × ℕ)) (i j : ℕ)
    (hmem : (i, j) ∈ l)
    (herr : ∃ e, closestPair (sats.getD i ("", [])).1 (sats.getD j ("", [])).1
      (sats.getD i ("", [])).2 (sats.getD j ("", [])).2 = .error e) :
    ∃ e, analyzePairs sats l = .error e := by
  induction l with
  | nil => simp at hmem
  | cons hd rest ih =>
    obtain ⟨a, b⟩ := hd
    cases hc : closestPair (sats.getD a ("", [])).1 (sats.getD b ("", [])).1
        (sats.getD a ("", [])).2 (sats.getD b ("", [])).2 with
    | error e => exact ⟨e, by rw [analyzePairs, hc]⟩
    | ok ev =>
      have hrest : (i, j) ∈ rest := by
        rcases List.mem_cons.mp hmem with heq | h
        · obtain ⟨e, he⟩ := herr
          rw [Prod.mk.injEq] at heq
          obtain ⟨rfl, rfl⟩ := heq
          rw [he] at hc
          exact absurd hc (by simp)
        · exact h
      obtain ⟨e, he⟩ := ih hrest
      exact ⟨e, by rw [analyzePairs, hc, he]⟩

/-- Names of a reported event are the names the pair was analyzed under. -/
theorem closestPair_ok_names (n1 n2 : String) (p1 p2 : List Sample) (ev : Event)
    (h : closestPair n1 n2 p1 p2 = .ok ev) : ev.s1 = n1 ∧ ev.s2 = n2 := by
  obtain ⟨-, -, -, h1, h2⟩ := closestPair_ok_elim n1 n2 p1 p2 ev h
  exact ⟨h1, h2⟩

/-- A getD at an in-range index is a member of the list. -/
theorem getD_mem_of_lt {α : Type} (l : List α) (a : ℕ) (d : α) (h : a < l.length) :
    l.getD a d ∈ l := by
  rw [List.getD_eq_getElem?_getD, List.getElem?_eq_getElem h]
  exact List.getElem_mem h

/-- Every event delivered by the loop carries names of listed satellites. -/
theorem analyzePairs_ok_names (sats : List Sat) (l : List (ℕ × ℕ))
    (hl : ∀ p ∈ l, p.1 < sats.length ∧ p.2 < sats.length) (evs : List Event)
    (h : analyzePairs sats l = .ok evs) :
    ∀ ev ∈ evs, (∃ s ∈ sats, ev.s1 = s.1) ∧ ∃ s ∈ sats, ev.s2 = s.1 := by
  induction l generalizing evs with
  | nil =>
    obtain rfl : ([] : List Event) = evs := by simpa [analyzePairs] using h
    simp
  | cons hd rest ih =>
    obtain ⟨a, b⟩ := hd
    rw [analyzePairs] at h
    cases hc : closestPair (sats.getD a ("", [])).1 (sats.getD b ("", [])).1
        (sats.getD a ("", [])).2 (sats.getD b ("", [])).2 with
    | error e => rw [hc] at h; exact absurd h (by simp)
    | ok ev0 =>
      rw [hc] at h
      cases hr : analyzePairs sats rest with
      | error e => rw [hr] at h; exact absurd h (by simp)
      | ok evs0 =>
        rw [hr] at h
        obtain rfl : ev0 :: evs0 = evs := by simpa using h
        intro ev hev
        rcases List.mem_cons.mp hev with rfl | hev'
        · obtain ⟨hn1, hn2⟩ := closestPair_ok_names _ _ _ _ _ hc
          obtain ⟨ha, hb⟩ := hl (a, b) (List.mem_cons_self _ _)
          exact ⟨⟨sats.getD a ("", []), getD_mem_of_lt _ _ _ ha, hn1⟩,
            ⟨sats.getD b ("", []), getD_mem_of_lt _ _ _ hb, hn2⟩⟩
        · exact ih (fun p hp => hl p (List.mem_cons_of_mem _ hp)) evs0 hr ev hev'

/-- In a pair list with nodup keys an entry is determined by its key. -/
theorem keys_nodup_unique {β : Type} (l : List (ℕ × β))
    (h : (l.map Prod.fst).Nodup) (k : ℕ) (a b : β)
    (ha : (k, a) ∈ l) (hb : (k, b) ∈ l) : a = b := by
  induction l with
  | nil => simp at ha
  | cons hd rest ih =>
    simp only [List.map_cons, List.nodup_cons] at h
    obtain ⟨hnot, hnd⟩ := h
    rcases List.mem_cons.mp ha with heqa | ha'
    · rcases List.mem_cons.mp hb with heqb | hb'
      · rw [← heqa] at heqb
        exact (congrArg Prod.snd heqb).symm
      · exfalso
        apply hnot
        rw [← heqa]
        exact List.mem_map.mpr ⟨(k, b), hb', rfl⟩
    · rcases List.mem_cons.mp hb with heqb | hb'
      · exfalso
        apply hnot
        rw [← heqb]
        exact List.mem_map.mpr ⟨(k, a), ha', rfl⟩
      · exact ih hnd ha' hb'

/-! ### Claim theorems -/

/-- C1: in the closest-approach analysis of a pair of equal-grid
trajectories, every index at which either sample is invalid is excluded from
the minimum-distance search — it is neither distance 0 nor infinity — so a
reported event attains its (squared) minimum at an index where both samples
are valid, and its Euclidean separation is the minimum of the Euclidean
separations over exactly the indices where both samples are valid. -/
theorem closest_approach_min_over_valid (n1 n2 : String) (p1 p2 : List Sample)
    (ev : Event) (hlen : p1.length = p2.length)
    (h : closestPair n1 n2 p1 p2 = .ok ev) :
    (∃ a b, p1[ev.idx]? = some (some a) ∧ p2[ev.idx]? = some (some b) ∧
      ev.minSqDist = sqNorm (subVec a b)) ∧
    (∀ (m : ℕ) (a b : Vec3), p1[m]? = some (some a) → p2[m]? = some (some b) →
      Real.sqrt (ev.minSqDist : ℝ) ≤ Real.sqrt ((sqNorm (subVec a b) : ℝ))) := by
  obtain ⟨ds, hs, hn, -, -⟩ := closestPair_ok_elim n1 n2 p1 p2 ev h
  have h0 : p1.length ≠ 0 := by
    intro h0
    rw [show sepSeries p1 p2 = .error
        "ValueError: empty operand shape (0,) does not reduce along axis 1" by
      unfold sepSeries; rw [if_pos (Or.inl h0)]] at hs
    exact absurd hs (by simp)
  rw [sepSeries_eq_zip p1 p2 hlen h0] at hs
  obtain rfl : List.zipWith sqSep p1 p2 = ds := by simpa using hs
  obtain ⟨-, hget, hlb, -⟩ := nanargmin_spec _ 0 ev.idx ev.minSqDist hn
  rw [Nat.sub_zero] at hget
  constructor
  · obtain ⟨x, y, hx, hy, hxy⟩ := List.getElem?_zipWith_eq_some.mp hget
    obtain ⟨a, b, rfl, rfl, hd⟩ := (sqSep_eq_some x y ev.minSqDist).mp hxy
    exact ⟨a, b, hx, hy, hd⟩
  · intro m a b ha hb
    have hds : (List.zipWith sqSep p1 p2)[m]? = some (some (sqNorm (subVec a b))) :=
      List.getElem?_zipWith_eq_some.mpr ⟨_, _, ha, hb, rfl⟩
    have hle : ev.minSqDist ≤ sqNorm (subVec a b) := hlb m _ hds
    exact Real.sqrt_le_sqrt (by exact_mod_cast hle)

/-- Witness for C1 at a concrete pair: index 1 is the only mutually valid
index and the event attains the separation there. -/
theorem closest_approach_min_over_valid_witness :
    ∃ a b, ([none, some ((0 : ℚ), (0 : ℚ), (0 : ℚ))] : List Sample)[(1 : ℕ)]? =
        some (some a) ∧
      ([none, some ((3 : ℚ), (4 : ℚ), (0 : ℚ))] : List Sample)[(1 : ℕ)]? =
        some (some b) ∧
      (Event.mk "A" "B" 1 25).minSqDist = sqNorm (subVec a b) :=
  (closest_approach_min_over_valid "A" "B"
    [none, some ((0 : ℚ), (0 : ℚ), (0 : ℚ))]
    [none, some ((3 : ℚ), (4 : ℚ), (0 : ℚ))] (Event.mk "A" "B" 1 25) rfl
    (by norm_num [closestPair, sepSeries, sqSep, subSample, subVec, sqNorm,
      nanargmin, minPick])).1

/-- C2: the risk classification of update_info is a pure total function of
the minimum distance and the threshold, classifying ALERT exactly when the
distance is strictly below the threshold, hence SAFE at exact equality. -/
theorem classify_alert_iff_strictly_below (d t : ℚ) :
    (classify d t = .ALERT ↔ d < t) ∧ (classify d t = .SAFE ↔ t ≤ d) := by
  by_cases h : d < t
  · simp [classify, h, not_le.mpr h]
  · simp [classify, h, not_lt.mp h]

/-- C3: whenever some index has both samples valid, the pair analysis
succeeds and reports the least index attaining the global minimum: the
reported index is valid and attains the minimum, every valid index has a
separation at least as large, and every valid index strictly before the
reported one has a strictly larger separation. -/
theorem closest_approach_earliest_tie (n1 n2 : String) (p1 p2 : List Sample)
    (hlen : p1.length = p2.length)
    (hex : ∃ (m : ℕ) (a b : Vec3), p1[m]? = some (some a) ∧ p2[m]? = some (some b)) :
    ∃ ev, closestPair n1 n2 p1 p2 = .ok ev ∧
      (∃ a b, p1[ev.idx]? = some (some a) ∧ p2[ev.idx]? = some (some b) ∧
        ev.minSqDist = sqNorm (subVec a b)) ∧
      (∀ (m : ℕ) (a b : Vec3), p1[m]? = some (some a) → p2[m]? = some (some b) →
        ev.minSqDist ≤ sqNorm (subVec a b)) ∧
      (∀ (m : ℕ) (a b : Vec3), m < ev.idx → p1[m]? = some (some a) →
        p2[m]? = some (some b) → ev.minSqDist < sqNorm (subVec a b)) := by
  obtain ⟨m, a, b, ha, hb⟩ := hex
  have h0 : p1.length ≠ 0 := by
    obtain ⟨hlt, -⟩ := List.getElem?_eq_some.mp ha
    omega
  have hzip := sepSeries_eq_zip p1 p2 hlen h0
  have hds : (List.zipWith sqSep p1 p2)[m]? = some (some (sqNorm (subVec a b))) :=
    List.getElem?_zipWith_eq_some.mpr ⟨_, _, ha, hb, rfl⟩
  obtain ⟨i, d, hn⟩ := nanargmin_isSome_of_entry (List.zipWith sqSep p1 p2) 0 m _ hds
  have hok : closestPair n1 n2 p1 p2 = .ok (Event.mk n1 n2 i d) := by
    have hstep : closestPair n1 n2 p1 p2 =
        (match nanargmin (List.zipWith sqSep p1 p2) 0 with
         | none => Except.error "ValueError: All-NaN slice encountered"
         | some (i, d) => Except.ok ⟨n1, n2, i, d⟩) := by
      unfold closestPair
      rw [hzip]
    rw [hstep, hn]
  obtain ⟨-, hget, hlb, hfirst⟩ := nanargmin_spec _ 0 i d hn
  rw [Nat.sub_zero] at hget
  refine ⟨Event.mk n1 n2 i d, hok, ?_, ?_, ?_⟩
  · obtain ⟨x, y, hx, hy, hxy⟩ := List.getElem?_zipWith_eq_some.mp hget
    obtain ⟨a', b', rfl, rfl, hd⟩ := (sqSep_eq_some x y d).mp hxy
    exact ⟨a', b', hx, hy, hd⟩
  · intro m' a' b' ha' hb'
    exact hlb m' _ (List.getElem?_zipWith_eq_some.mpr ⟨_, _, ha', hb', rfl⟩)
  · intro m' a' b' hm' ha' hb'
    exact hfirst m' _ (by simpa using hm')
      (List.getElem?_zipWith_eq_some.mpr ⟨_, _, ha', hb', rfl⟩)

/-- Witness for C3 at a concrete pair whose minimum is attained at several
indices: the analysis succeeds and the reported index is the earliest
minimizer. -/
theorem closest_approach_earliest_tie_witness :
    ∃ ev, closestPair "A" "B"
        [some ((0 : ℚ), (0 : ℚ), (0 : ℚ)), some ((2 : ℚ), (0 : ℚ), (0 : ℚ)),
          some ((0 : ℚ), (0 : ℚ), (0 : ℚ))]
        [some ((1 : ℚ), (0 : ℚ), (0 : ℚ)), some ((2 : ℚ), (1 : ℚ), (0 : ℚ)),
          some ((1 : ℚ), (0 : ℚ), (0 : ℚ))] = .ok ev ∧
      (∃ a b, ([some ((0 : ℚ), (0 : ℚ), (0 : ℚ)), some ((2 : ℚ), (0 : ℚ), (0 : ℚ)),
          some ((0 : ℚ), (0 : ℚ), (0 : ℚ))] : List Sample)[ev.idx]? = some (some a) ∧
        ([some ((1 : ℚ), (0 : ℚ), (0 : ℚ)), some ((2 : ℚ), (1 : ℚ), (0 : ℚ)),
          some ((1 : ℚ), (0 : ℚ), (0 : ℚ))] : List Sample)[ev.idx]? = some (some b) ∧
        ev.minSqDist = sqNorm (subVec a b)) ∧
      (∀ (m : ℕ) (a b : Vec3),
        ([some ((0 : ℚ), (0 : ℚ), (0 : ℚ)), some ((2 : ℚ), (0 : ℚ), (0 : ℚ)),
          some ((0 : ℚ), (0 : ℚ), (0 : ℚ))] : List Sample)[m]? = some (some a) →
        ([some ((1 : ℚ), (0 : ℚ), (0 : ℚ)), some ((2 : ℚ), (1 : ℚ), (0 : ℚ)),
          some ((1 : ℚ), (0 : ℚ), (0 : ℚ))] : List Sample)[m]? = some (some b) →
        ev.minSqDist ≤ sqNorm (subVec a b)) ∧
      (∀ (m : ℕ) (a b : Vec3), m < ev.idx →
        ([some ((0 : ℚ), (0 : ℚ), (0 : ℚ)), some ((2 : ℚ), (0 : ℚ), (0 : ℚ)),
          some ((0 : ℚ), (0 : ℚ), (0 : ℚ))] : List Sample)[m]? = some (some a) →
        ([some ((1 : ℚ), (0 : ℚ), (0 : ℚ)), some ((2 : ℚ), (1 : ℚ), (0 : ℚ)),
          some ((1 : ℚ), (0 : ℚ), (0 : ℚ))] : List Sample)[m]? = some (some b) →
        ev.minSqDist < sqNorm (subVec a b)) :=
  closest_approach_earliest_tie "A" "B" _ _ rfl
    ⟨0, ((0 : ℚ), (0 : ℚ), (0 : ℚ)), ((1 : ℚ), (0 : ℚ), (0 : ℚ)), rfl, rfl⟩

/-- C4 (counterexample): a pair with no mutually valid index does not yield a
per-pair NoValidOverlap result leaving other pairs unaffected — the all-NaN
ValueError of np.nanargmin is uncaught and the whole analysis delivers an
error, although the remaining pair of A and C analyzes fine on its own. -/
theorem no_overlap_counterexample :
    analyzeAll [("A", [some ((0 : ℚ), (0 : ℚ), (0 : ℚ))]), ("B", [(none : Sample)]),
        ("C", [some ((1 : ℚ), (0 : ℚ), (0 : ℚ))])] =
      .error "ValueError: All-NaN slice encountered" ∧
    closestPair "A" "C" [some ((0 : ℚ), (0 : ℚ), (0 : ℚ))]
      [some ((1 : ℚ), (0 : ℚ), (0 : ℚ))] = .ok (Event.mk "A" "C" 0 1) := by
  constructor
  · norm_num [analyzeAll, analyzePairs, pairIdxs, closestPair, sepSeries, sqSep,
      subSample, subVec, sqNorm, nanargmin, minPick, List.range_succ]
  · norm_num [closestPair, sepSeries, sqSep, subSample, subVec, sqNorm,
      nanargmin, minPick]

/-- C4 (amended): when some analyzed pair has equal-length trajectories with
no index where both samples are valid, the all-NaN error of the minimum
search propagates out of the loop uncaught, so the whole analysis run
delivers an error instead of per-pair results. -/
theorem no_valid_overlap_aborts_run (sats : List Sat) (i j : ℕ)
    (hij : (i, j) ∈ pairIdxs sats.length)
    (hlen : (sats.getD i ("", [])).2.length = (sats.getD j ("", [])).2.length)
    (hnov : ∀ (m : ℕ) (x y : Sample), ((sats.getD i ("", [])).2)[m]? = some x →
      ((sats.getD j ("", [])).2)[m]? = some y → sqSep x y = none) :
    ∃ e, analyzeAll sats = .error e := by
  obtain ⟨e, he⟩ := closestPair_error_of_no_overlap (sats.getD i ("", [])).1
    (sats.getD j ("", [])).1 _ _ hlen hnov
  simpa [analyzeAll] using
    analyzePairs_error_of_pair sats (pairIdxs sats.length) i j hij ⟨e, he⟩

/-- Witness for the amended C4: two one-sample trajectories, one of them
invalid, make the whole run fail. -/
theorem no_valid_overlap_aborts_run_witness :
    ∃ e, analyzeAll [("A", [some ((0 : ℚ), (0 : ℚ), (0 : ℚ))]),
      ("B", [(none : Sample)])] = .error e :=
  no_valid_overlap_aborts_run
    [("A", [some ((0 : ℚ), (0 : ℚ), (0 : ℚ))]), ("B", [(none : Sample)])] 0 1
    (by decide) rfl
    (by
      intro m x y hx hy
      cases m with
      | zero =>
        obtain rfl : (none : Sample) = y := by simpa using hy
        cases x <;> rfl
      | succ m => simp at hy)

/-- C5: with positive step and window the sampler returns exactly
floor(window seconds / step) samples, the sample at index i being the
propagator evaluated at the grid instant of index i — an index with a failed
propagation carries the invalid marker rather than being skipped. -/
theorem sampler_counts_and_never_skips (sgp4 : ℤ → Sample) (startUs : ℤ)
    (hours : ℚ) (stepSec : ℤ) (hstep : 0 < stepSec) (hwin : 0 < hours) :
    ∃ l, propagate_positions sgp4 startUs hours stepSec = .ok l ∧
      l.length = (⌊hours * 3600 / ((stepSec : ℤ) : ℚ)⌋).toNat ∧
      ∀ (i : ℕ), i < l.length →
        l[i]? = some (sgp4 (jdaySeconds (gridInstantUs startUs stepSec i))) := by
  have hne : stepSec ≠ 0 := by omega
  have hq : (0 : ℚ) ≤ hours * 3600 / ((stepSec : ℤ) : ℚ) := by
    apply div_nonneg
    · nlinarith
    · exact_mod_cast hstep.le
  have hpy : pyInt (hours * 3600 / ((stepSec : ℤ) : ℚ)) =
      ⌊hours * 3600 / ((stepSec : ℤ) : ℚ)⌋ := by
    unfold pyInt
    rw [if_pos hq]
  refine ⟨(List.range (pyInt (hours * 3600 / ((stepSec : ℤ) : ℚ))).toNat).map
    (fun i => sgp4 (jdaySeconds (gridInstantUs startUs stepSec i))), ?_, ?_, ?_⟩
  · unfold propagate_positions
    rw [if_neg hne]
  · simp [hpy]
  · intro i hi
    simp only [List.length_map, List.length_range] at hi
    simp [List.getElem?_map, List.getElem?_range hi]

/-- Witness for C5: a two-hour window at an hourly step gives two recorded
samples even under an always-failing propagator. -/
theorem sampler_counts_and_never_skips_witness :
    ∃ l, propagate_positions (fun _ => (none : Sample)) 500000 2 3600 = .ok l ∧
      l.length = (⌊(2 : ℚ) * 3600 / (((3600 : ℤ) : ℤ) : ℚ)⌋).toNat ∧
      ∀ (i : ℕ), i < l.length → l[i]? = some (none : Sample) :=
  sampler_counts_and_never_skips (fun _ => none) 500000 2 3600 (by norm_num)
    (by norm_num)

/-- C6 (counterexample): a negative step is an invalid parameter, yet the
sampler does not reject it — the call succeeds and silently returns an empty
trajectory. -/
theorem sampler_rejects_nothing_counterexample :
    propagate_positions (fun _ => some ((0 : ℚ), (0 : ℚ), (0 : ℚ))) 0 6 (-60) =
      .ok [] := by
  have h2 : ⌈(-360 : ℚ)⌉ = -360 := by
    rw [show ((-360 : ℚ)) = ((-360 : ℤ) : ℚ) by norm_num, Int.ceil_intCast]
  norm_num [propagate_positions, pyInt, h2]

/-- C6 (amended): the sampler validates nothing up front: a zero step fails
with the ZeroDivisionError of the num_steps division, while any nonzero
step — negative steps and nonpositive windows included — succeeds with
int(hours·3600/step) clamped to zero samples; individual invalid samples
never raise an error since the result is ok for every propagator. -/
theorem sampler_never_validates (sgp4 : ℤ → Sample) (startUs : ℤ) (hours : ℚ)
    (stepSec : ℤ) :
    (stepSec = 0 → propagate_positions sgp4 startUs hours stepSec =
      .error "ZeroDivisionError: float division by zero") ∧
    (stepSec ≠ 0 → ∃ l, propagate_positions sgp4 startUs hours stepSec = .ok l ∧
      l.length = (pyInt (hours * 3600 / ((stepSec : ℤ) : ℚ))).toNat) := by
  constructor
  · intro h
    unfold propagate_positions
    rw [if_pos h]
  · intro h
    refine ⟨(List.range (pyInt (hours * 3600 / ((stepSec : ℤ) : ℚ))).toNat).map
      (fun i => sgp4 (jdaySeconds (gridInstantUs startUs stepSec i))), ?_, ?_⟩
    · unfold propagate_positions
      rw [if_neg h]
    · simp

/-- Witness for the amended C6: the zero-step division error. -/
theorem sampler_never_validates_witness :
    propagate_positions (fun _ => (none : Sample)) 0 6 0 =
      .error "ZeroDivisionError: float division by zero" :=
  (sampler_never_validates (fun _ => none) 0 6 0).1 rfl

/-- C7 (counterexample): two trajectories of differing sample counts do not
yield a grid-mismatch error: with a single-sample trajectory numpy
broadcasting silently compares that one sample against every sample of the
other, and the analysis reports an event. -/
theorem grid_mismatch_counterexample :
    closestPair "A" "B" [some ((0 : ℚ), (0 : ℚ), (0 : ℚ))]
      [some ((0 : ℚ), (0 : ℚ), (0 : ℚ)), some ((3 : ℚ), (4 : ℚ), (0 : ℚ))] =
      .ok (Event.mk "A" "B" 0 0) := by
  norm_num [closestPair, sepSeries, sqSep, subSample, subVec, sqNorm,
    nanargmin, minPick]

/-- C7 (amended): differing sample counts are never compared over a
truncated common prefix: when neither count is one the numpy subtraction
raises a broadcast error, and since nothing catches it the whole analysis
run fails, not only the offending pair; when one count is one, numpy
broadcasting silently compares that single sample against the whole other
trajectory. -/
theorem grid_mismatch_aborts_run (sats : List Sat) (i j : ℕ)
    (hij : (i, j) ∈ pairIdxs sats.length)
    (hne : (sats.getD i ("", [])).2.length ≠ (sats.getD j ("", [])).2.length)
    (h1 : (sats.getD i ("", [])).2.length ≠ 1)
    (h2 : (sats.getD j ("", [])).2.length ≠ 1) :
    ∃ e, analyzeAll sats = .error e := by
  obtain ⟨e, he⟩ := sepSeries_error_of_mismatch _ _ hne h1 h2
  have herr := closestPair_error_of_sep (sats.getD i ("", [])).1
    (sats.getD j ("", [])).1 _ _ e he
  simpa [analyzeAll] using
    analyzePairs_error_of_pair sats (pairIdxs sats.length) i j hij ⟨e, herr⟩

/-- Witness for the amended C7: counts two and three abort the whole run. -/
theorem grid_mismatch_aborts_run_witness :
    ∃ e, analyzeAll
      [("A", [some ((0 : ℚ), (0 : ℚ), (0 : ℚ)), some ((0 : ℚ), (0 : ℚ), (0 : ℚ))]),
       ("B", [some ((0 : ℚ), (0 : ℚ), (0 : ℚ)), some ((0 : ℚ), (0 : ℚ), (0 : ℚ)),
         some ((0 : ℚ), (0 : ℚ), (0 : ℚ))])] = .error e :=
  grid_mismatch_aborts_run _ 0 1 (by decide) (by decide) (by decide) (by decide)

/-- C8: an object whose element-set retrieval fails — network failure or a
response with fewer than three usable lines — is excluded from the run: with
distinct ids it contributes no entry to the satellite table, hence no
trajectory and no pair analysis (every reported event carries names of
listed satellites only), while every object whose retrieval succeeds is
stored with its name and propagated trajectory; the fetch result of each id
is consumed exactly once, so there is no retry. -/
theorem fetch_failure_scoped (fetchRes : List (ℕ × Option (List String)))
    (traj : String → String → List Sample) (nid : ℕ) (resp : Option (List String))
    (hmem : (nid, resp) ∈ fetchRes) :
    (fetch_tle resp = none → (fetchRes.map Prod.fst).Nodup →
      ∀ s ∈ buildSats fetchRes traj, s.1 ≠ nid) ∧
    (∀ nm l1 l2, fetch_tle resp = some (nm, l1, l2) →
      (nid, nm, traj l1 l2) ∈ buildSats fetchRes traj) ∧
    (∀ evs, analyzeAll ((buildSats fetchRes traj).map Prod.snd) = .ok evs →
      ∀ ev ∈ evs, (∃ s ∈ (buildSats fetchRes traj).map Prod.snd, ev.s1 = s.1) ∧
        ∃ s ∈ (buildSats fetchRes traj).map Prod.snd, ev.s2 = s.1) := by
  refine ⟨?_, ?_, ?_⟩
  · intro hf hnd s hs hkey
    obtain ⟨⟨k, r⟩, hp, hr⟩ := List.mem_filterMap.mp hs
    obtain ⟨t, ht, rfl⟩ := Option.map_eq_some'.mp hr
    have hk : k = nid := hkey
    subst hk
    have hrr : r = resp := keys_nodup_unique fetchRes hnd k r resp hp hmem
    rw [hrr, hf] at ht
    exact absurd ht (by simp)
  · intro nm l1 l2 hf
    refine List.mem_filterMap.mpr ⟨(nid, resp), hmem, ?_⟩
    rw [hf]
    rfl
  · intro evs hok ev hev
    refine analyzePairs_ok_names _ _ ?_ evs (by simpa [analyzeAll] using hok) ev hev
    intro p hp
    obtain ⟨h1, h2⟩ := pairIdxs_mem_lt _ p hp
    constructor <;> rw [List.length_map] <;> omega

/-- Witness for C8: the successfully fetched object 1 lands in the table
with its name and trajectory. -/
theorem fetch_failure_scoped_witness :
    ((1 : ℕ), "N1", [some ((0 : ℚ), (0 : ℚ), (0 : ℚ))]) ∈
      buildSats [(1, some ["N1", "L1", "L2"]), (2, none)]
        (fun _ _ => [some ((0 : ℚ), (0 : ℚ), (0 : ℚ))]) :=
  (fetch_failure_scoped [(1, some ["N1", "L1", "L2"]), (2, none)]
    (fun _ _ => [some ((0 : ℚ), (0 : ℚ), (0 : ℚ))]) 1 (some ["N1", "L1", "L2"])
    (by simp)).2.1 "N1" "L1" "L2" rfl

/-- C9 (counterexample): a record whose first data line fails the per-line
checksum is accepted unchanged by the record handling — no ChecksumError
exists anywhere in the source. -/
theorem checksum_not_validated_counterexample :
    lineChecksumOk "1 25544U 0" = false ∧
    fetch_tle (some ["ISS", "1 25544U 0", "2 25544"]) =
      some ("ISS", "1 25544U 0", "2 25544") :=
  ⟨by decide, rfl⟩

/-- C9 (amended): the record handling validates only the line count and is a
pure function of the response: a missing fetch or a response of fewer than
three lines yields the None failure marker (the object is excluded, though
no distinct MalformedRecordError exists), and any response of at least three
lines is accepted as is, its per-line checksum digits never inspected. -/
theorem record_validation_line_count_only (resp : Option (List String)) :
    (resp = none → fetch_tle resp = none) ∧
    (∀ lines, resp = some lines → lines.length < 3 → fetch_tle resp = none) ∧
    (∀ lines, resp = some lines → 3 ≤ lines.length →
      fetch_tle resp = some (lines.getD 0 "", lines.getD 1 "", lines.getD 2 "")) := by
  refine ⟨?_, ?_, ?_⟩
  · intro h
    rw [h]
    rfl
  · intro lines h hlt
    rw [h]
    simp only [fetch_tle]
    rw [if_neg (by omega)]
  · intro lines h hge
    rw [h]
    simp only [fetch_tle]
    rw [if_pos hge]

/-- Witness for the amended C9: a three-line response is accepted as is. -/
theorem record_validation_line_count_only_witness :
    fetch_tle (some ["SAT", "1 11111U 5", "2 11111 7"]) =
      some ((["SAT", "1 11111U 5", "2 11111 7"] : List String).getD 0 "",
        (["SAT", "1 11111U 5", "2 11111 7"] : List String).getD 1 "",
        (["SAT", "1 11111U 5", "2 11111 7"] : List String).getD 2 "") :=
  (record_validation_line_count_only (some ["SAT", "1 11111U 5", "2 11111 7"])).2.2
    ["SAT", "1 11111U 5", "2 11111 7"] rfl (by norm_num)

/-- C10: the instant handed to the propagator at index i is the nominal grid
instant start + i·step truncated to whole seconds: it equals the truncation
of start plus i·step, the dropped sub-second remainder is the same for every
index, and that remainder is at least zero and below one second. -/
theorem jday_drops_subsecond (startUs stepSec : ℤ) (i : ℕ) :
    jdaySeconds (gridInstantUs startUs stepSec i) =
      jdaySeconds startUs + (i : ℤ) * stepSec ∧
    gridInstantUs startUs stepSec i -
        1000000 * jdaySeconds (gridInstantUs startUs stepSec i) =
      startUs - 1000000 * jdaySeconds startUs ∧
    0 ≤ startUs - 1000000 * jdaySeconds startUs ∧
    startUs - 1000000 * jdaySeconds startUs < 1000000 := by
  have h1 : gridInstantUs startUs stepSec i =
      startUs + ((i : ℤ) * stepSec) * 1000000 := by
    unfold gridInstantUs
    ring
  rw [h1]
  unfold jdaySeconds
  generalize (i : ℤ) * stepSec = k
  refine ⟨?_, ?_, ?_, ?_⟩ <;> omega

end SatMonitor
